import Mathlib

/-!
Verification of the Active Object example (src/main.cpp).

The program has two components:

* `DispatchQueue` — a FIFO of `Operation = std::function<void()>`:
  `put` appends at the tail (`ops_queue.push`) and `take` blocks until the
  queue is non-empty, then removes and returns the head
  (`ops_queue.front()` / `ops_queue.pop()`).

* `BecomeActiveObject` — owns a `val : double`, the dispatch queue, an
  atomic `done` flag and a worker thread running `run`, which loops
  `while (!done) dispatchQueue.take()();`.  The destructor enqueues a
  sentinel closure `[&]() { done = true; }` and joins the worker.

The embedding is shallow: the finitely many closure shapes that the
program ever enqueues become the constructors of `Op`, the queue becomes a
`List Op` with head = front, and the worker loop becomes a structurally
recursive function over the queue that also returns the trace of executed
operations and the unserviced remainder.  Blocking on a `std::future`
becomes running the worker forward until the corresponding promise field
of the state has been written.  `double val` only ever holds the exact
values `0` and `2.0`, so it is modelled as a rational.
-/

/-- The closures the program enqueues, one constructor per lambda in
src/main.cpp.  `sentinel` is the destructor's `[&]() { done = true; }`;
`doSomethingBody` is the lambda of `doSomething` (writes `999` into its
promise); `doSomethingElseBody` is `[this]() { this->val = 2.0; }`;
`doSomethingWithParamsBody a b` is the by-value-capturing printing lambda
of `doSomethingWithParams`; `doSomethingWithRefParamsBody` is the
reference-capturing lambda of `doSomethingWithReferenceParams`. -/
inductive Op where
  | sentinel : Op
  | doSomethingBody : Op
  | doSomethingElseBody : Op
  | doSomethingWithParamsBody : Int → Int → Op
  | doSomethingWithRefParamsBody : Op
deriving DecidableEq, Repr

namespace DispatchQueue

/-- `DispatchQueue::put`: append the operation at the tail
(`ops_queue.push(op)`).  Total: the queue is unbounded and `put` has no
failure path. -/
def put (q : List Op) (op : Op) : List Op := q ++ [op]

/-- `DispatchQueue::take`: when the queue is non-empty, remove and return
the head (`front` then `pop`).  `none` models the blocking branch taken
when the queue is empty (`empty.wait(lock, [&]{ return !ops_queue.empty(); })`
does not return). -/
def take : List Op → Option (Op × List Op)
  | [] => none
  | op :: rest => some (op, rest)

/-- Repeatedly `take` until the queue is empty, collecting the returned
operations in order. -/
def takeAll : List Op → List Op
  | [] => []
  | op :: rest => op :: takeAll rest

lemma foldl_put (q : List Op) (ops : List Op) :
    List.foldl put q ops = q ++ ops := by
  induction ops generalizing q with
  | nil => simp
  | cons op rest ih => simp [put, ih]

lemma takeAll_eq (q : List Op) : takeAll q = q := by
  induction q with
  | nil => rfl
  | cons op rest ih => simp [takeAll, ih]

lemma take_cons (op : Op) (rest : List Op) : take (op :: rest) = some (op, rest) := rfl

end DispatchQueue

/-- Claim C1: FIFO order.  Starting from any queue, enqueueing a sequence
of operations with `put` and then draining with `take` yields first the
previously queued operations and then the new ones, in exactly the order
they were put: `put` appends at the tail and `take` removes the head, so
the takes reproduce the enqueue order with no reordering. -/
theorem fifo_put_take_order (q ops : List Op) :
    DispatchQueue.takeAll (List.foldl DispatchQueue.put q ops) = q ++ ops := by
  rw [DispatchQueue.foldl_put, DispatchQueue.takeAll_eq]

/-- Claim C5: `take` on a non-empty queue is total and returns the head,
leaving exactly the tail; the blocking (empty-queue) branch is reached
exactly when the queue is empty, hence is unreachable under the
non-emptiness precondition. -/
theorem take_head_tail (op : Op) (rest q : List Op) :
    DispatchQueue.take (op :: rest) = some (op, rest) ∧
    (DispatchQueue.take q = none ↔ q = []) := by
  refine ⟨rfl, ?_⟩
  cases q <;> simp [DispatchQueue.take]

/-- Claim C6: `put` never fails and disturbs nothing: the result is the
old queue with the operation appended at the tail, so the length grows by
one, the first `q.length` elements are exactly the old queue (previously
queued operations and their relative order unchanged), and the new
operation is the last element. -/
theorem put_appends_preserves (q : List Op) (op : Op) :
    (DispatchQueue.put q op).length = q.length + 1 ∧
    List.take q.length (DispatchQueue.put q op) = q ∧
    (DispatchQueue.put q op).getLast? = some op ∧
    (∀ i : Nat, i < q.length → (DispatchQueue.put q op).get? i = q.get? i) := by
  refine ⟨by simp [DispatchQueue.put], ?_, ?_, ?_⟩
  · simp [DispatchQueue.put]
  · simp [DispatchQueue.put]
  · intro i hi
    simp [DispatchQueue.put, List.get?_eq_getElem?, List.getElem?_append_left hi]

/-- The state visible to the worker while executing operations:
`BecomeActiveObject`'s fields `done` (the atomic termination flag) and
`val` (the `double` internal state), plus the memory the enqueued
closures reach through their captures: the console output produced by the
printing lambdas (recorded as the printed integer pairs), `doSomething`'s
`std::promise<int>` (written value, `none` while unwritten), the caller
locals `a`, `b` captured by reference in
`doSomethingWithReferenceParams`, and its `std::promise<void>`
(`true` once `set_value()` has run). -/
structure WState where
  done : Bool
  val : Rat
  outLog : List (Int × Int)
  promiseInt : Option Int
  refA : Int
  refB : Int
  promiseVoid : Bool
deriving DecidableEq, Repr

/-- The state after `BecomeActiveObject()`: `val(0)`, `done(false)`, no
output yet, promises unwritten. -/
def initState : WState :=
  { done := false, val := 0, outLog := [], promiseInt := none,
    refA := 0, refB := 0, promiseVoid := false }

/-- Executing one dequeued closure on the worker, one case per lambda
body in src/main.cpp: the sentinel runs `done = true`; `doSomething`'s
lambda runs `int ret = 999; return_val.set_value(ret)`;
`doSomethingElse`'s runs `this->val = 2.0`; `doSomethingWithParams`'
prints its by-value-captured pair; `doSomethingWithReferenceParams`'
prints the referents, then runs `a = 1234; b = 5678;
return_val.set_value()`. -/
def exec : Op → WState → WState
  | Op.sentinel, s => { s with done := true }
  | Op.doSomethingBody, s => { s with promiseInt := some 999 }
  | Op.doSomethingElseBody, s => { s with val := 2 }
  | Op.doSomethingWithParamsBody a b, s => { s with outLog := s.outLog ++ [(a, b)] }
  | Op.doSomethingWithRefParamsBody, s =>
      { s with outLog := s.outLog ++ [(s.refA, s.refB)]
               refA := 1234
               refB := 5678
               promiseVoid := true }

/-- The state after the worker has executed a list of closures in order. -/
def execList (s : WState) (q : List Op) : WState :=
  List.foldl (fun t op => exec op t) s q

/-- `BecomeActiveObject::run`, the worker loop
`while (!done) { dispatchQueue.take()(); }`, evaluated over the queue
contents: returns `some (final state, trace of executed operations in
order, unserviced remainder of the queue)` when the loop exits, and
`none` when the worker blocks forever inside `take` on an empty queue
with `done` still unset. -/
def runTrace : WState → List Op → Option (WState × List Op × List Op)
  | s, [] => if s.done then some (s, [], []) else none
  | s, op :: rest =>
      if s.done then some (s, [], op :: rest)
      else
        match runTrace (exec op s) rest with
        | none => none
        | some (s', tr, rem) => some (s', op :: tr, rem)

/-- `~BecomeActiveObject()` enqueues the sentinel closure
`[&]() { done = true; }` at the tail of the dispatch queue (then joins
the worker). -/
def destructor (q : List Op) : List Op := DispatchQueue.put q Op.sentinel

lemma exec_done_of_ne_sentinel (op : Op) (s : WState) (h : op ≠ Op.sentinel) :
    (exec op s).done = s.done := by
  cases op <;> simp_all [exec]

lemma runTrace_nil (s : WState) :
    runTrace s [] = if s.done then some (s, [], []) else none := rfl

lemma runTrace_cons (s : WState) (op : Op) (rest : List Op) :
    runTrace s (op :: rest) =
      if s.done then some (s, [], op :: rest)
      else
        match runTrace (exec op s) rest with
        | none => none
        | some (s', tr, rem) => some (s', op :: tr, rem) := rfl

lemma runTrace_sentinel (q post : List Op) (s : WState)
    (hdone : s.done = false) (hq : Op.sentinel ∉ q) :
    runTrace s (q ++ Op.sentinel :: post)
      = some (exec Op.sentinel (execList s q), q ++ [Op.sentinel], post) := by
  induction q generalizing s with
  | nil =>
      cases post with
      | nil => simp [runTrace_cons, runTrace_nil, hdone, exec, execList]
      | cons p ps => simp [runTrace_cons, runTrace_nil, hdone, exec, execList]
  | cons op rest ih =>
      have hop : op ≠ Op.sentinel := fun h => hq (h ▸ List.mem_cons_self op rest)
      have hrest : Op.sentinel ∉ rest := fun h => hq (List.mem_cons_of_mem op h)
      have hdone' : (exec op s).done = false := by
        rw [exec_done_of_ne_sentinel op s hop]; exact hdone
      rw [List.cons_append, runTrace_cons, ih (exec op s) hdone' hrest]
      simp [hdone, execList]

/-- Claim C2: shutdown drains the queue.  If the worker has not yet
terminated and the destructor enqueues its sentinel behind a queue `q` of
previously enqueued operations (none of which is the sentinel), then the
worker loop exits (`some`, so the destructor's `join` returns), its
execution trace is exactly `q ++ [sentinel]` — every previously enqueued
operation executed, in FIFO order, before the sentinel, none dropped —
the remaining queue is empty, and the final state is that of executing
all of `q` and then the sentinel. -/
theorem shutdown_drains_queue (s : WState) (q : List Op)
    (hdone : s.done = false) (hq : Op.sentinel ∉ q) :
    runTrace s (destructor q)
      = some (exec Op.sentinel (execList s q), q ++ [Op.sentinel], []) := by
  have h := runTrace_sentinel q [] s hdone hq
  simpa [destructor, DispatchQueue.put] using h

/-- Witness for C2 at a concrete input: one pending operation
(`doSomethingElse`'s closure) followed by the destructor's sentinel; the
worker executes both, terminates with `val = 2.0` and `done = true`, and
leaves an empty queue. -/
theorem shutdown_drains_queue_witness :
    initState.done = false ∧ Op.sentinel ∉ [Op.doSomethingElseBody] ∧
    runTrace initState (destructor [Op.doSomethingElseBody])
      = some (exec Op.sentinel (execList initState [Op.doSomethingElseBody]),
          [Op.doSomethingElseBody, Op.sentinel], []) :=
  ⟨rfl, by decide,
    shutdown_drains_queue initState [Op.doSomethingElseBody] rfl (by decide)⟩

/-- Claim C9: operations enqueued after shutdown are never executed.  If
operations `post` sit behind the sentinel in the queue, the worker's
trace is exactly `q ++ [sentinel]` — it contains no operation of `post`
— and `post` is returned as the unserviced remainder: once the sentinel
sets the termination flag the loop performs no further `take`, so those
operations stay in the queue forever. -/
theorem enqueued_after_shutdown_unserviced (s : WState) (q post : List Op)
    (hdone : s.done = false) (hq : Op.sentinel ∉ q) :
    runTrace s (q ++ Op.sentinel :: post)
      = some (exec Op.sentinel (execList s q), q ++ [Op.sentinel], post) :=
  runTrace_sentinel q post s hdone hq

/-- Witness for C9 at a concrete input: an operation enqueued behind the
sentinel is absent from the trace and remains queued. -/
theorem enqueued_after_shutdown_unserviced_witness :
    initState.done = false ∧ Op.sentinel ∉ [Op.doSomethingElseBody] ∧
    runTrace initState
        ([Op.doSomethingElseBody] ++ Op.sentinel :: [Op.doSomethingWithParamsBody 5 7])
      = some (exec Op.sentinel (execList initState [Op.doSomethingElseBody]),
          [Op.doSomethingElseBody, Op.sentinel], [Op.doSomethingWithParamsBody 5 7]) :=
  ⟨rfl, by decide,
    enqueued_after_shutdown_unserviced initState [Op.doSomethingElseBody]
      [Op.doSomethingWithParamsBody 5 7] rfl (by decide)⟩

/-- `return_val.get_future().get()` for `doSomething`'s
`std::promise<int>`: the calling thread blocks while the worker runs the
queued closures in order; the call returns the written value as soon as
an executed closure has written the promise.  `none` models the caller
hanging forever: the worker exits its loop (`done` already set) or blocks
on an exhausted queue before the promise is ever written. -/
def futureGetInt : WState → List Op → Option Int
  | _, [] => none
  | s, op :: rest =>
      if s.done then none
      else
        match (exec op s).promiseInt with
        | some v => some v
        | none => futureGetInt (exec op s) rest

/-- `BecomeActiveObject::doSomething`: create a fresh `std::promise<int>`
(`promiseInt := none`), `put` the closure that writes `999` into it at
the tail of the queue `q` of already-pending operations, then block on
the future.  Returns the value the call returns, `none` if it hangs. -/
def doSomething (s : WState) (q : List Op) : Option Int :=
  futureGetInt { s with promiseInt := none }
    (DispatchQueue.put q Op.doSomethingBody)

lemma exec_promiseInt_of_ne (op : Op) (s : WState) (h : op ≠ Op.doSomethingBody) :
    (exec op s).promiseInt = s.promiseInt := by
  cases op <;> simp_all [exec]

lemma futureGetInt_put (s : WState) (q : List Op)
    (hdone : s.done = false) (hq : Op.sentinel ∉ q) (hp : s.promiseInt = none) :
    futureGetInt s (q ++ [Op.doSomethingBody]) = some 999 := by
  induction q generalizing s with
  | nil => simp [futureGetInt, hdone, exec]
  | cons op rest ih =>
      have hop : op ≠ Op.sentinel := fun h => hq (h ▸ List.mem_cons_self op rest)
      have hrest : Op.sentinel ∉ rest := fun h => hq (List.mem_cons_of_mem op h)
      have hdone' : (exec op s).done = false := by
        rw [exec_done_of_ne_sentinel op s hop]; exact hdone
      by_cases hb : op = Op.doSomethingBody
      · subst hb
        simp [futureGetInt, hdone, exec]
      · have hp' : (exec op s).promiseInt = none := by
          rw [exec_promiseInt_of_ne op s hb]; exact hp
        simp only [List.cons_append, futureGetInt, hdone, Bool.false_eq_true,
          if_false, hp']
        exact ih (exec op s) hdone' hrest hp'

/-- Claim C3: a blocking value-returning call issued while the worker is
running returns exactly the value its deferred operation computes.  For
any state whose termination flag is unset and any pending queue not
containing the shutdown sentinel, `doSomething` returns `999`, the value
the enqueued closure writes into its per-call promise. -/
theorem doSomething_returns_999 (s : WState) (q : List Op)
    (hdone : s.done = false) (hq : Op.sentinel ∉ q) :
    doSomething s q = some 999 := by
  unfold doSomething DispatchQueue.put
  exact futureGetInt_put { s with promiseInt := none } q hdone hq rfl

/-- Witness for C3 at a concrete input: a fresh object with one pending
operation; the blocking call returns `999`. -/
theorem doSomething_returns_999_witness :
    initState.done = false ∧ Op.sentinel ∉ [Op.doSomethingElseBody] ∧
    doSomething initState [Op.doSomethingElseBody] = some 999 :=
  ⟨rfl, by decide, doSomething_returns_999 initState [Op.doSomethingElseBody] rfl (by decide)⟩

/-- `return_val.get_future().get()` for `doSomethingWithReferenceParams`'
`std::promise<void>`: the caller blocks while the worker runs the queued
closures in order, and returns as soon as an executed closure has
signalled the promise; the returned pair is the value of the caller's
locals `a`, `b` at that moment (the referents the closure mutated in
place).  `none` models the caller hanging forever. -/
def futureGetVoid : WState → List Op → Option (Int × Int)
  | _, [] => none
  | s, op :: rest =>
      if s.done then none
      else
        if (exec op s).promiseVoid then some ((exec op s).refA, (exec op s).refB)
        else futureGetVoid (exec op s) rest

/-- `BecomeActiveObject::doSomethingWithReferenceParams(a, b)`: bind the
caller's locals (values `a`, `b`) as the referents, create a fresh
`std::promise<void>`, `put` the reference-capturing closure at the tail
of the queue `q`, then block until the promise is signalled.  Returns
`some (a, b)` — the locals' values as the caller observes them
immediately upon return — or `none` if the call hangs. -/
def doSomethingWithReferenceParams (s : WState) (q : List Op) (a b : Int) :
    Option (Int × Int) :=
  futureGetVoid { s with refA := a, refB := b, promiseVoid := false }
    (DispatchQueue.put q Op.doSomethingWithRefParamsBody)

lemma exec_promiseVoid_of_ne (op : Op) (s : WState)
    (h : op ≠ Op.doSomethingWithRefParamsBody) :
    (exec op s).promiseVoid = s.promiseVoid := by
  cases op <;> simp_all [exec]

lemma futureGetVoid_put (s : WState) (q : List Op)
    (hdone : s.done = false) (hq : Op.sentinel ∉ q) (hp : s.promiseVoid = false) :
    futureGetVoid s (q ++ [Op.doSomethingWithRefParamsBody]) = some (1234, 5678) := by
  induction q generalizing s with
  | nil => simp [futureGetVoid, hdone, exec]
  | cons op rest ih =>
      have hop : op ≠ Op.sentinel := fun h => hq (h ▸ List.mem_cons_self op rest)
      have hrest : Op.sentinel ∉ rest := fun h => hq (List.mem_cons_of_mem op h)
      have hdone' : (exec op s).done = false := by
        rw [exec_done_of_ne_sentinel op s hop]; exact hdone
      by_cases hb : op = Op.doSomethingWithRefParamsBody
      · subst hb
        simp [futureGetVoid, hdone, exec]
      · have hp' : (exec op s).promiseVoid = false := by
          rw [exec_promiseVoid_of_ne op s hb]; exact hp
        simp only [List.cons_append, futureGetVoid, hdone, Bool.false_eq_true,
          if_false, hp']
        exact ih (exec op s) hdone' hrest hp'

/-- Claim C4: after the blocking reference-parameter call returns, the
caller observes the mutation.  For any caller locals `a`, `b`, any state
with the termination flag unset and any pending queue without the
sentinel, `doSomethingWithReferenceParams` returns with the referents
reading `1234` and `5678`: the enqueued closure mutated them in place and
signalled the promise, and the call returned only after that signal. -/
theorem referenceParams_mutation_visible (s : WState) (q : List Op) (a b : Int)
    (hdone : s.done = false) (hq : Op.sentinel ∉ q) :
    doSomethingWithReferenceParams s q a b = some (1234, 5678) := by
  unfold doSomethingWithReferenceParams DispatchQueue.put
  exact futureGetVoid_put { s with refA := a, refB := b, promiseVoid := false } q hdone hq rfl

/-- Witness for C4 at the spec's concrete input: locals `a = 1`, `b = 2`
on a fresh object with one pending operation; the call returns with the
locals reading `1234` and `5678`. -/
theorem referenceParams_mutation_visible_witness :
    initState.done = false ∧ Op.sentinel ∉ [Op.doSomethingWithParamsBody 5 7] ∧
    doSomethingWithReferenceParams initState [Op.doSomethingWithParamsBody 5 7] 1 2
      = some (1234, 5678) :=
  ⟨rfl, by decide,
    referenceParams_mutation_visible initState [Op.doSomethingWithParamsBody 5 7] 1 2
      rfl (by decide)⟩

/-- `BecomeActiveObject::doSomethingWithParams(a, b)`: build the closure
capturing `a` and `b` BY VALUE at enqueue time (`[a, b]() { ... }`) and
`put` it at the tail; the call returns immediately — its only effect is
the new queue, no blocking construct and no state access. -/
def doSomethingWithParams (q : List Op) (a b : Int) : List Op :=
  DispatchQueue.put q (Op.doSomethingWithParamsBody a b)

/-- `BecomeActiveObject::doSomethingElse`: `put` the closure
`[this]() { this->val = 2.0; }` and return immediately. -/
def doSomethingElse (q : List Op) : List Op :=
  DispatchQueue.put q Op.doSomethingElseBody

/-- `BecomeActiveObject::getVal`: `return val;` — reads the internal
field directly on the calling thread.  It enqueues nothing, so it is
given the queue only to exhibit that the queue comes back unchanged. -/
def getVal (s : WState) (q : List Op) : Rat × List Op := (s.val, q)

/-- Claim C8: by-value parameter capture.  The enqueued closure of
`doSomethingWithParams q a b` carries the values of `a` and `b` as of
enqueue time — the queue becomes `q` with `doSomethingWithParamsBody a b`
appended, and the call performs no wait and touches no state — and when
the worker later executes that closure, in whatever state `s` it then
finds (in particular whatever the caller did to its own variables in the
meantime), it prints exactly the pair `(a, b)` captured at enqueue
time. -/
theorem params_captured_by_value (q : List Op) (s : WState) (a b : Int) :
    doSomethingWithParams q a b = q ++ [Op.doSomethingWithParamsBody a b] ∧
    (∀ t : WState, (exec (Op.doSomethingWithParamsBody a b) t).outLog
      = t.outLog ++ [(a, b)]) ∧
    (exec (Op.doSomethingWithParamsBody a b) s).val = s.val ∧
    (exec (Op.doSomethingWithParamsBody a b) s).done = s.done := by
  refine ⟨rfl, fun t => rfl, rfl, rfl⟩

lemma exec_val_of_ne (op : Op) (s : WState) (h : op ≠ Op.doSomethingElseBody) :
    (exec op s).val = s.val := by
  cases op <;> simp_all [exec]

lemma execList_val_of_not_mem (s : WState) (l : List Op)
    (hl : Op.doSomethingElseBody ∉ l) : (execList s l).val = s.val := by
  induction l generalizing s with
  | nil => rfl
  | cons op rest ih =>
      have hop : op ≠ Op.doSomethingElseBody :=
        fun h => hl (h ▸ List.mem_cons_self op rest)
      have hrest : Op.doSomethingElseBody ∉ rest :=
        fun h => hl (List.mem_cons_of_mem op h)
      calc (execList s (op :: rest)).val
          = (execList (exec op s) rest).val := rfl
        _ = (exec op s).val := ih (exec op s) hrest
        _ = s.val := exec_val_of_ne op s hop

/-- Claim C10: `getVal` returns the current `val` directly and
immediately on the calling thread: it returns exactly `s.val` with the
queue unchanged (nothing enqueued, nothing awaited); after the worker has
executed any operations not including `doSomethingElse`'s
state-mutating closure it still returns the constructor's initial value
`0`; and immediately after that closure has executed it returns `2.0`. -/
theorem getVal_immediate (s : WState) (q l : List Op)
    (hl : Op.doSomethingElseBody ∉ l) :
    getVal s q = (s.val, q) ∧
    getVal (execList initState l) q = (0, q) ∧
    getVal (exec Op.doSomethingElseBody s) q = (2, q) := by
  refine ⟨rfl, ?_, rfl⟩
  show ((execList initState l).val, q) = (0, q)
  rw [execList_val_of_not_mem initState l hl]
  rfl

/-- Witness for C10 at a concrete input: before the mutating closure runs
(here after `doSomething`'s closure only) `getVal` reads `0`; right after
it runs, `2.0`. -/
theorem getVal_immediate_witness :
    Op.doSomethingElseBody ∉ [Op.doSomethingBody] ∧
    getVal initState [] = (0, []) ∧
    getVal (execList initState [Op.doSomethingBody]) [] = (0, []) ∧
    getVal (exec Op.doSomethingElseBody initState) [] = (2, []) :=
  ⟨by decide,
    (getVal_immediate initState [] [Op.doSomethingBody] (by decide)).1,
    (getVal_immediate initState [] [Op.doSomethingBody] (by decide)).2.1,
    (getVal_immediate initState [] [Op.doSomethingBody] (by decide)).2.2⟩

/-- Claim C7 is false as stated: `getVal` is a public operation that
accesses the internal state field `val` DIRECTLY from the calling thread.
At a concrete input — two object states differing only in `val` — the
value `getVal` hands back on the calling thread differs, while the queue
it hands back is the unchanged empty queue: nothing was enqueued, so the
access did not go through an enqueued closure. -/
theorem getVal_reads_val_on_caller_thread :
    (getVal { initState with val := 2 } []).2 = [] ∧
    (getVal { initState with val := 2 } []).1 ≠ (getVal initState []).1 :=
  ⟨rfl, by decide⟩

/-- Claim C7 (amended): every MUTATION of the internal state field `val`
happens on the worker, inside a Deferred Operation drawn from the queue —
executing any operation other than `doSomethingElse`'s closure leaves
`val` unchanged, and the caller-side halves of all public operations
(promise creation, referent binding, the `put` calls themselves) never
change `val` — but `getVal` READS `val` directly on the calling thread,
returning it without enqueuing anything. -/
theorem val_mutated_only_on_worker (s : WState) (q : List Op) (a b : Int) :
    (∀ op : Op, (exec op s).val = s.val ∨ op = Op.doSomethingElseBody) ∧
    ({ s with promiseInt := none } : WState).val = s.val ∧
    ({ s with refA := a, refB := b, promiseVoid := false } : WState).val = s.val ∧
    doSomethingWithParams q a b = q ++ [Op.doSomethingWithParamsBody a b] ∧
    doSomethingElse q = q ++ [Op.doSomethingElseBody] ∧
    getVal s q = (s.val, q) := by
  refine ⟨fun op => ?_, rfl, rfl, rfl, rfl, rfl⟩
  cases op
  · exact Or.inl rfl
  · exact Or.inl rfl
  · exact Or.inr rfl
  · exact Or.inl rfl
  · exact Or.inl rfl
